import Mathlib

/-!
Shallow embedding of the `ws-sub-just-js` core: the `connect` handshake, the
reference-counted lazy connection manager `makeLazyConnect`, and the
subscription multiplexer `subscribe` (the variant with the early-completion
flag and the silent retry loop on abnormal closures).

The JavaScript code is single-threaded and event driven; we embed it as
explicit state machines.  Each run-to-completion block of the event loop
(a synchronous call plus the microtasks it unleashes) becomes one atomic
step of the machine, and a program run is a fold of the step function over
a list of events.
-/

/-! ## Connector: `connect(url)` handshake -/

/-- The events the pending `connect` promise can observe first: a close
event (`socket.onclose = reject`) or an inbound message
(`socket.onmessage`).  Close events carry a numeric code and a reason. -/
inductive HandshakeEvent : Type
  | close (code : Int) (reason : String)
  | message (data : String)
deriving DecidableEq, Repr

/-- How a `connect(url)` call can fail: rejected with the close event
itself, or with `Error("Didn't acknowledge!")` when the first inbound
message is not the acknowledgment. -/
inductive ConnErr : Type
  | closeEvent (code : Int) (reason : String)
  | didntAcknowledge
deriving DecidableEq, Repr

/-- `isAckMessage(data)`: `String(data) === 'ack'`. -/
def isAckMessage (data : String) : Bool :=
  data = "ack"

/-- How the handshake promise settles on its first observed event:
`socket.onclose = reject` and
`socket.onmessage = ({data}) => isAckMessage(data) ? resolve() : reject(new Error("Didn't acknowledge!"))`. -/
def handshakeSettle : HandshakeEvent → Except ConnErr Unit
  | .close code reason => .error (.closeEvent code reason)
  | .message data =>
      if isAckMessage data then .ok () else .error .didntAcknowledge

/-- The handshake phase of `connect(url)` over the sequence of socket
events.  The inner promise settles on the first event and every later
resolve/reject call is ignored ("Once promises settle, all following
resolve/reject calls will simply be ignored"), so the outcome is decided
by the head event; `none` means no event arrived yet (still pending). -/
def connectResult : List HandshakeEvent → Option (Except ConnErr Unit)
  | [] => none
  | e :: _ => some (handshakeSettle e)

/-- A close event as delivered to the post-handshake `socket.onclose`
handler of the terminal promise. -/
structure CloseEvent : Type where
  code : Int
  reason : String
deriving DecidableEq, Repr

/-- Settlement of `throwOnCloseOrWaitForComplete`:
`socket.onclose = (event) => event.code === 1000 ? resolve() : reject(event)`. -/
def terminalSettle (event : CloseEvent) : Except CloseEvent Unit :=
  if event.code = 1000 then .ok () else .error event

/-! ## LazyConnectionManager: `makeLazyConnect(url)`

State of one manager instance: the `locks` counter, the remembered
`connecting` promise (identified by an attempt number), plus logs of the
externally visible effects (`connect` calls started, `complete()` calls
issued) and the per-lease release latches.

Events, each one atomic run-to-completion block of the event loop:
* `lease` — a `lazyConnect()` call runs its synchronous prefix:
  `locks++`, creation of the `release`/`released` latch, and
  `if (!connecting) connecting = connect(url)`; the awaited attempt is the
  one remembered at this moment.
* `release i` — lease `i`'s `release()` resolves its `released` promise
  (a second call is ignored by promise settlement) and the attached
  `.then` handler runs: `if (--locks === 0) complete();`.
* `terminal a` — attempt `a`'s `throwOnCloseOrWaitForComplete` settles;
  every lease's `.finally(() => (connecting = null))` handler runs.
* `attemptFailed a` — the remembered `connecting` promise of attempt `a`
  rejects.  No manager code is attached to that rejection: the awaiting
  `lazyConnect` bodies rethrow to their callers and no field of the
  manager is written, so the step only records the event. -/

/-- One lease: the attempt it awaited and whether its `released` promise
has already resolved. -/
structure Lease : Type where
  attempt : Nat
  released : Bool
deriving DecidableEq, Repr

/-- The mutable state of one `makeLazyConnect` instance together with its
effect logs. -/
structure LazyConnectState : Type where
  locks : Int
  connecting : Option Nat
  nextAttempt : Nat
  leases : List Lease
  connects : List Nat
  completes : List Nat
  failedAttempts : List Nat
deriving DecidableEq, Repr

/-- Events on one `makeLazyConnect` instance. -/
inductive LazyEvent : Type
  | lease
  | release (i : Nat)
  | terminal (a : Nat)
  | attemptFailed (a : Nat)
deriving DecidableEq, Repr

/-- Initial manager state: `locks = 0`, no remembered attempt. -/
def initLazy : LazyConnectState :=
  { locks := 0, connecting := none, nextAttempt := 0, leases := [],
    connects := [], completes := [], failedAttempts := [] }

/-- One atomic event on the manager state, translated from `lazyConnect`:
see the event descriptions above. -/
def lazyConnectStep (s : LazyConnectState) : LazyEvent → LazyConnectState
  | .lease =>
      match s.connecting with
      | some a =>
          { s with locks := s.locks + 1, leases := s.leases ++ [⟨a, false⟩] }
      | none =>
          { s with locks := s.locks + 1,
                   connecting := some s.nextAttempt,
                   nextAttempt := s.nextAttempt + 1,
                   leases := s.leases ++ [⟨s.nextAttempt, false⟩],
                   connects := s.connects ++ [s.nextAttempt] }
  | .release i =>
      match s.leases[i]? with
      | none => s
      | some l =>
          if l.released then s
          else
            { s with locks := s.locks - 1,
                     leases := s.leases.set i { l with released := true },
                     completes :=
                       if s.locks - 1 = 0 then s.completes ++ [l.attempt]
                       else s.completes }
  | .terminal _ => { s with connecting := none }
  | .attemptFailed a => { s with failedAttempts := s.failedAttempts ++ [a] }

/-- A run of the manager: fold the step over the event list. -/
def runLazy (t : List LazyEvent) : LazyConnectState :=
  t.foldl lazyConnectStep initLazy

/-! ## SubscriptionMultiplexer: `subscribe(connect, request, listener)`

### Inbound message dispatch

`onMessage` parses the raw data with `JSON.parse` and tests
`'complete' in msg && msg.complete === id` and then
`'id' in msg && msg.id === id`.  We classify an inbound datum by how that
code behaves on it: `JSON.parse` throws on data that is not JSON; the
`in` operator throws a `TypeError` on a parsed value that is not an
object; on an object the two guards read the optional `complete`, `id`
and `response` fields (a field holding a non-number compares unequal to
`id`, exactly like an absent one, so `Option Int` captures the guards). -/

/-- An inbound `MessageEvent`'s data, classified by how
`JSON.parse` and the two `in`-guards of `onMessage` treat it. -/
inductive InData : Type
  | notJson
  | jsonNonObject
  | jsonObj (complete? : Option Int) (id? : Option Int) (response? : Option String)
deriving DecidableEq, Repr

/-- What one invocation of `onMessage` does. -/
inductive HandlerAction : Type
  | throws
  | releases
  | invokesListener (payload : Option String)
  | ignores
deriving DecidableEq, Repr

/-- The body of `onMessage` for the subscription with identifier `id`:
`JSON.parse(data)`, then `'complete' in msg && msg.complete === id`
fires `release()`, else `'id' in msg && msg.id === id` fires
`listener(msg.response)` (an absent `response` field passes
`undefined`, modelled as `none`), else nothing happens. -/
def onMessage (id : Int) : InData → HandlerAction
  | .notJson => .throws
  | .jsonNonObject => .throws
  | .jsonObj c i r =>
      if c = some id then .releases
      else if i = some id then .invokesListener r
      else .ignores

/-- Dispatch of a finite inbound sequence to one attached `onMessage`
handler.  When `release()` fires, the `released` branch of the lease's
race resolves and the microtask drain resumes `subscribe` past its
`await`, detaching the handler before the next message macrotask runs —
so dispatch stops there.  A throwing handler invocation is confined to
the event callback and leaves everything attached and unchanged.
Returns the arguments of the listener invocations in order, and whether
`release()` was fired by the handler. -/
def dispatchMsgs (id : Int) : List InData → List (Option String) × Bool
  | [] => ([], false)
  | d :: rest =>
      match onMessage id d with
      | .releases => ([], true)
      | .invokesListener p =>
          let t := dispatchMsgs id rest
          (p :: t.1, t.2)
      | .throws => dispatchMsgs id rest
      | .ignores => dispatchMsgs id rest

/-- Specification-side predicate: the datum is a Complete envelope
addressed to `id`. -/
def isCompleteFor (id : Int) : InData → Bool
  | .jsonObj c _ _ => c = some id
  | _ => false

/-- Specification-side selector: the listener argument a Response
envelope addressed to `id` (and not claimed by the Complete guard)
would deliver, `none` otherwise. -/
def responsePayloadFor (id : Int) : InData → Option (Option String)
  | .jsonObj c i r =>
      if c ≠ some id ∧ i = some id then some r else none
  | _ => none

/-! ### The retry loop of `waitForCompleteOrThrow`

One iteration of the `for (;;)` loop: await a lease (`await connect()`
can reject — that rejection lands in the same `catch`); if the
`completed` flag is set, release the lease and return; otherwise
allocate `id = currId++`, send the Request envelope, attach `onMessage`,
install the active completer, and await
`throwOnCloseOrWaitForRelease`.  A resolution detaches the handler and
returns; a rejection skips the `removeEventListener` line and reaches
the `catch`, which retries when `'code' in err && err.code === 1006`
and rethrows otherwise. -/

/-- A JavaScript error value as the `catch` clause sees it: it may or
may not carry a numeric `code` property (`CloseEvent`s do, a plain
`Error` does not). -/
structure JsError : Type where
  code? : Option Int
deriving DecidableEq, Repr

/-- How one obtained lease's combined `throwOnCloseOrWaitForRelease`
future settles during the attempt, if at all. -/
inductive FutOutcome : Type
  | resolved
  | stillPending
  | rejected (e : JsError)
deriving DecidableEq, Repr

/-- The fate of one loop iteration's interaction with the manager:
either `await connect()` itself rejected, or a lease was obtained and
its combined future behaved as `fut`. -/
inductive AttemptOutcome : Type
  | leaseFail (e : JsError)
  | leaseOk (fut : FutOutcome)
deriving DecidableEq, Repr

/-- How the `waitForCompleteOrThrow` promise stands after the supplied
outcomes are exhausted. -/
inductive SubResult : Type
  | returned
  | threw (e : JsError)
  | stillWaiting
deriving DecidableEq, Repr

/-- Observable trace of one `subscribe` call's loop: the ids of Request
envelopes sent, the identifiers consumed from `currId`, how many
`onMessage` handlers were attached and how many detached, whether the
early-completion branch released its lease, the value of `currId`
afterwards, and the loop's result. -/
structure SubTrace : Type where
  requestsSent : List Int
  idsAllocated : List Int
  handlersAttached : Nat
  handlersDetached : Nat
  releasedEarly : Bool
  nextIdAfter : Int
  result : SubResult
deriving DecidableEq, Repr

/-- The retry loop of `subscribe`, folded over the attempt outcomes.
`completed` is the early-completion flag as consulted right after a
lease is obtained; `currId` is the global identifier counter. -/
def subscribeLoop (completed : Bool) (currId : Int) :
    List AttemptOutcome → SubTrace
  | [] => ⟨[], [], 0, 0, false, currId, .stillWaiting⟩
  | .leaseFail e :: rest =>
      if e.code? = some 1006 then subscribeLoop completed currId rest
      else ⟨[], [], 0, 0, false, currId, .threw e⟩
  | .leaseOk fut :: rest =>
      if completed then ⟨[], [], 0, 0, true, currId, .returned⟩
      else
        match fut with
        | .stillPending => ⟨[currId], [currId], 1, 0, false, currId + 1, .stillWaiting⟩
        | .resolved => ⟨[currId], [currId], 1, 1, false, currId + 1, .returned⟩
        | .rejected e =>
            if e.code? = some 1006 then
              let t := subscribeLoop completed (currId + 1) rest
              ⟨currId :: t.requestsSent, currId :: t.idsAllocated,
               1 + t.handlersAttached, t.handlersDetached, t.releasedEarly,
               t.nextIdAfter, t.result⟩
            else ⟨[currId], [currId], 1, 0, false, currId + 1, .threw e⟩

/-! ### The completer functions -/

/-- A wire envelope of the subscription protocol. -/
inductive Envelope : Type
  | requestMsg (id : Int) (request : String)
  | responseMsg (id : Int) (response : String)
  | completeMsg (complete : Int)
deriving DecidableEq, Repr

/-- The part of an active subscription's state its completer touches:
the envelopes sent on the socket so far and the lease's single-fire
`released` latch. -/
structure ActiveSubState : Type where
  sent : List Envelope
  leaseReleased : Bool
deriving DecidableEq, Repr

/-- The active completer installed once the subscription is requested:
`socket.send(JSON.stringify({ complete: id }))` followed by
`release()` (the latter a single-fire latch, so it sets
`leaseReleased` at most once, but the send happens on every call). -/
def activeComplete (id : Int) (s : ActiveSubState) : ActiveSubState :=
  { sent := s.sent ++ [.completeMsg id], leaseReleased := true }

/-- The pre-connection completer: `() => { completed = true; }`. -/
def earlyComplete (_completed : Bool) : Bool :=
  true

/-- Whether a manager event is a terminal-signal settlement. -/
def isTerminalEv : LazyEvent → Bool
  | .terminal _ => true
  | _ => false

/-! ## Theorems -/

/-- C4: `connect(url)` resolves only when the first inbound socket event
is the acknowledgment message `"ack"`; any other first message rejects
with `Error("Didn't acknowledge!")`, a close event before the
acknowledgment rejects with that close event, and the outcome is fixed
by the first event alone (no retry at this layer). -/
theorem connect_requires_ack (code : Int) (reason : String) (d : String)
    (rest rest' : List HandshakeEvent) (hd : d ≠ "ack") :
    connectResult (HandshakeEvent.message "ack" :: rest) = some (Except.ok ()) ∧
    connectResult (HandshakeEvent.message d :: rest)
        = some (Except.error ConnErr.didntAcknowledge) ∧
    connectResult (HandshakeEvent.close code reason :: rest)
        = some (Except.error (ConnErr.closeEvent code reason)) ∧
    (∀ es, connectResult es = some (Except.ok ()) →
        ∃ tl, es = HandshakeEvent.message "ack" :: tl) ∧
    (∀ e, connectResult (e :: rest) = connectResult (e :: rest')) := by
  refine ⟨by simp [connectResult, handshakeSettle, isAckMessage], ?_, rfl, ?_, fun e => rfl⟩
  · simp [connectResult, handshakeSettle, isAckMessage, hd]
  · intro es h
    match es with
    | [] => simp [connectResult] at h
    | HandshakeEvent.close c r :: tl => simp [connectResult, handshakeSettle] at h
    | HandshakeEvent.message d2 :: tl =>
        refine ⟨tl, ?_⟩
        simp only [connectResult, handshakeSettle, isAckMessage, Option.some.injEq] at h
        by_cases hd2 : d2 = "ack"
        · rw [hd2]
        · simp [hd2] at h

/-- Witness for `connect_requires_ack` at concrete inputs. -/
theorem connect_requires_ack_witness :
    connectResult [HandshakeEvent.message "ack"] = some (Except.ok ()) ∧
    connectResult [HandshakeEvent.message "nope"]
        = some (Except.error ConnErr.didntAcknowledge) ∧
    connectResult [HandshakeEvent.close 4000 "oops"]
        = some (Except.error (ConnErr.closeEvent 4000 "oops")) := by
  obtain ⟨h1, h2, h3, _, _⟩ :=
    connect_requires_ack 4000 "oops" "nope" [] [HandshakeEvent.close 1 ""] (by decide)
  exact ⟨h1, h2, h3⟩

/-- C6: dispatching a fixed inbound sequence to the subscription with
identifier `id` invokes the listener exactly on the Response envelopes
addressed to `id`, with their payloads, in arrival order, up to the
first Complete envelope addressed to `id` (which fires `release()` and
detaches the handler instead of calling the listener); envelopes
addressed to other identifiers, unparseable data and non-object JSON
contribute neither a listener call nor a release. -/
theorem subscribe_dispatch_exact (id : Int) (ms : List InData) :
    dispatchMsgs id ms =
      ((ms.takeWhile fun d => !(isCompleteFor id d)).filterMap (responsePayloadFor id),
        ms.any (isCompleteFor id)) := by
  induction ms with
  | nil => rfl
  | cons d rest ih =>
      cases d with
      | notJson =>
          simpa [dispatchMsgs, onMessage, isCompleteFor, responsePayloadFor] using ih
      | jsonNonObject =>
          simpa [dispatchMsgs, onMessage, isCompleteFor, responsePayloadFor] using ih
      | jsonObj c i r =>
          by_cases hc : c = some id
          · simp [dispatchMsgs, onMessage, isCompleteFor, hc]
          · by_cases hi : i = some id
            · simp [dispatchMsgs, onMessage, isCompleteFor, responsePayloadFor, hc, hi, ih]
            · simpa [dispatchMsgs, onMessage, isCompleteFor, responsePayloadFor, hc, hi]
                using ih

/-- C10 counterexample: on inbound data that is not valid JSON,
`JSON.parse` raises inside the message handler, so the handler does not
terminate without throwing. -/
theorem onMessage_throws_cex :
    onMessage 0 InData.notJson = HandlerAction.throws := by decide

/-- C10 amended: on a well-formed JSON object envelope that is neither
`Complete{id}` nor `Response{id}` the handler terminates without
throwing and silently ignores the message; on non-JSON data or
non-object JSON the handler throws (`JSON.parse` or the `in` test), the
exception staying confined to the event callback; in all these cases
the listener is not invoked, the lease is not released and the dispatch
state is unchanged. -/
theorem onMessage_ignores_unrelated (id : Int) (c i : Option Int) (r : Option String)
    (hc : c ≠ some id) (hi : i ≠ some id) :
    onMessage id (InData.jsonObj c i r) = HandlerAction.ignores ∧
    onMessage id InData.notJson = HandlerAction.throws ∧
    onMessage id InData.jsonNonObject = HandlerAction.throws ∧
    (∀ d rest, onMessage id d = HandlerAction.throws →
        dispatchMsgs id (d :: rest) = dispatchMsgs id rest) ∧
    (∀ d rest, onMessage id d = HandlerAction.ignores →
        dispatchMsgs id (d :: rest) = dispatchMsgs id rest) := by
  refine ⟨by simp [onMessage, hc, hi], rfl, rfl, ?_, ?_⟩ <;>
    intro d rest h <;> simp [dispatchMsgs, h]

/-- Witness for `onMessage_ignores_unrelated` at concrete inputs. -/
theorem onMessage_ignores_unrelated_witness :
    onMessage 0 (InData.jsonObj (some 1) (some 2) none) = HandlerAction.ignores ∧
    dispatchMsgs 0 [InData.notJson] = dispatchMsgs 0 [] := by
  obtain ⟨h1, h2, _, h4, _⟩ :=
    onMessage_ignores_unrelated 0 (some 1) (some 2) none (by decide) (by decide)
  exact ⟨h1, h4 InData.notJson [] h2⟩

/-- Helper: with the early-completion flag set, no iteration of the
loop ever sends a Request, allocates an identifier, or attaches a
handler, and the global counter is untouched. -/
theorem subscribeLoop_completed (outs : List AttemptOutcome) : ∀ n : Int,
    (subscribeLoop true n outs).requestsSent = [] ∧
    (subscribeLoop true n outs).idsAllocated = [] ∧
    (subscribeLoop true n outs).handlersAttached = 0 ∧
    (subscribeLoop true n outs).nextIdAfter = n := by
  induction outs with
  | nil => intro n; exact ⟨rfl, rfl, rfl, rfl⟩
  | cons o rest ih =>
      intro n
      cases o with
      | leaseFail e =>
          by_cases h : e.code? = some 1006
          · simpa [subscribeLoop, h] using ih n
          · simp [subscribeLoop, h]
      | leaseOk fut => simp [subscribeLoop]

/-- Helper: every identifier the loop allocates is at least the value
the global counter had when the loop started. -/
theorem subscribeLoop_ids_lb (outs : List AttemptOutcome) : ∀ (c : Bool) (n : Int),
    ∀ i ∈ (subscribeLoop c n outs).idsAllocated, n ≤ i := by
  induction outs with
  | nil => intro c n i hi; simp [subscribeLoop] at hi
  | cons o rest ih =>
      intro c n i hi
      cases o with
      | leaseFail e =>
          by_cases h : e.code? = some 1006
          · exact ih c n i (by simpa [subscribeLoop, h] using hi)
          · simp [subscribeLoop, h] at hi
      | leaseOk fut =>
          cases c with
          | true => simp [subscribeLoop] at hi
          | false =>
              cases fut with
              | stillPending => simp [subscribeLoop] at hi; omega
              | resolved => simp [subscribeLoop] at hi; omega
              | rejected e =>
                  by_cases h : e.code? = some 1006
                  · simp [subscribeLoop, h] at hi
                    rcases hi with hi | hi
                    · omega
                    · have := ih false (n + 1) i hi
                      omega
                  · simp [subscribeLoop, h] at hi; omega

/-- Helper: the identifiers the loop allocates are strictly increasing,
so every retry uses a fresh identifier never used before. -/
theorem subscribeLoop_ids_chain (outs : List AttemptOutcome) : ∀ (c : Bool) (n : Int),
    ((subscribeLoop c n outs).idsAllocated).Chain' (· < ·) := by
  induction outs with
  | nil => intro c n; simp [subscribeLoop]
  | cons o rest ih =>
      intro c n
      cases o with
      | leaseFail e =>
          by_cases h : e.code? = some 1006
          · simpa [subscribeLoop, h] using ih c n
          · simp [subscribeLoop, h]
      | leaseOk fut =>
          cases c with
          | true => simp [subscribeLoop]
          | false =>
              cases fut with
              | stillPending => simp [subscribeLoop]
              | resolved => simp [subscribeLoop]
              | rejected e =>
                  by_cases h : e.code? = some 1006
                  · simp only [subscribeLoop, h, if_pos]
                    refine List.chain'_cons'.mpr ⟨?_, ih false (n + 1)⟩
                    intro b hb
                    have hmem : b ∈ (subscribeLoop false (n + 1) rest).idsAllocated :=
                      List.mem_of_mem_head? hb
                    have := subscribeLoop_ids_lb rest false (n + 1) b hmem
                    omega
                  · simp [subscribeLoop, h]

/-- C7: if the subscription was completed before any lease was
obtained, then on the very first obtained lease the loop releases it
immediately and returns: no Request envelope is sent, no message
handler attached, and no subscription identifier consumed, whatever the
rest of the run would have been. -/
theorem subscribe_early_completion (n : Int) (outs : List AttemptOutcome)
    (fut : FutOutcome) (rest : List AttemptOutcome) :
    (subscribeLoop true n outs).requestsSent = [] ∧
    (subscribeLoop true n outs).idsAllocated = [] ∧
    (subscribeLoop true n outs).handlersAttached = 0 ∧
    (subscribeLoop true n outs).nextIdAfter = n ∧
    subscribeLoop true n (AttemptOutcome.leaseOk fut :: rest)
      = ⟨[], [], 0, 0, true, n, SubResult.returned⟩ := by
  obtain ⟨h1, h2, h3, h4⟩ := subscribeLoop_completed outs n
  exact ⟨h1, h2, h3, h4, by simp [subscribeLoop]⟩

/-- C2: a lease await or combined-future rejection whose error carries
`code === 1006` is absorbed: the loop retries the whole attempt with a
freshly allocated identifier and the final result is exactly that of
the continuation, so no error reaches the caller; a rejection with any
other error (for example code `4000`) terminates the loop and
`waitForCompleteOrThrow` rejects with that very error; allocated
identifiers are strictly increasing from the counter's starting value,
so each retry's identifier is fresh. -/
theorem subscribe_retry_on_1006 (n : Int) (e e' : JsError)
    (rest : List AttemptOutcome)
    (h6 : e.code? = some 1006) (hf : e'.code? ≠ some 1006) :
    subscribeLoop false n (AttemptOutcome.leaseFail e :: rest)
      = subscribeLoop false n rest ∧
    (subscribeLoop false n (AttemptOutcome.leaseOk (FutOutcome.rejected e) :: rest)).result
      = (subscribeLoop false (n + 1) rest).result ∧
    (subscribeLoop false n (AttemptOutcome.leaseOk (FutOutcome.rejected e) :: rest)).idsAllocated
      = n :: (subscribeLoop false (n + 1) rest).idsAllocated ∧
    (subscribeLoop false n (AttemptOutcome.leaseFail e' :: rest)).result
      = SubResult.threw e' ∧
    (subscribeLoop false n (AttemptOutcome.leaseOk (FutOutcome.rejected e') :: rest)).result
      = SubResult.threw e' ∧
    (∀ i ∈ (subscribeLoop false n rest).idsAllocated, n ≤ i) ∧
    ((subscribeLoop false n rest).idsAllocated).Chain' (· < ·) := by
  refine ⟨by simp [subscribeLoop, h6], by simp [subscribeLoop, h6],
    by simp [subscribeLoop, h6], by simp [subscribeLoop, hf],
    by simp [subscribeLoop, hf], subscribeLoop_ids_lb rest false n,
    subscribeLoop_ids_chain rest false n⟩

/-- Witness for `subscribe_retry_on_1006` at concrete inputs: an
abnormal closure (`1006`) is retried and the run still returns, while a
`4000` closure is rethrown with its code exposed. -/
theorem subscribe_retry_on_1006_witness :
    (subscribeLoop false 0
        [AttemptOutcome.leaseOk (FutOutcome.rejected ⟨some 1006⟩),
         AttemptOutcome.leaseOk FutOutcome.resolved]).result
      = (subscribeLoop false 1 [AttemptOutcome.leaseOk FutOutcome.resolved]).result ∧
    (subscribeLoop false 0
        [AttemptOutcome.leaseOk (FutOutcome.rejected ⟨some 4000⟩)]).result
      = SubResult.threw ⟨some 4000⟩ := by
  constructor
  · exact (subscribe_retry_on_1006 0 ⟨some 1006⟩ ⟨some 4000⟩
      [AttemptOutcome.leaseOk FutOutcome.resolved] (by decide) (by decide)).2.1
  · exact (subscribe_retry_on_1006 0 ⟨some 1006⟩ ⟨some 4000⟩ []
      (by decide) (by decide)).2.2.2.2.1

/-- C8 counterexample: an attempt whose combined future rejects with a
fatal code attached one handler and detached none — on the rejection
path the `removeEventListener` line is skipped, so the settled future
does not lead to a detach. -/
theorem subscribe_detach_cex :
    (subscribeLoop false 0
        [AttemptOutcome.leaseOk (FutOutcome.rejected ⟨some 4000⟩)]).handlersAttached = 1 ∧
    (subscribeLoop false 0
        [AttemptOutcome.leaseOk (FutOutcome.rejected ⟨some 4000⟩)]).handlersDetached = 0 := by
  decide

/-- C8 amended: the inbound-message handler is detached exactly when
the lease's combined terminal-or-released future resolves; when that
future rejects — retryably (`1006`) or fatally — the attempt's handler
is not detached and remains attached to the (by then closed) socket. -/
theorem subscribe_detach_on_resolve (n : Int) (e : JsError)
    (rest : List AttemptOutcome) (h6 : e.code? = some 1006) :
    (subscribeLoop false n (AttemptOutcome.leaseOk FutOutcome.resolved :: rest)).handlersAttached
      = 1 ∧
    (subscribeLoop false n (AttemptOutcome.leaseOk FutOutcome.resolved :: rest)).handlersDetached
      = 1 ∧
    (subscribeLoop false n (AttemptOutcome.leaseOk (FutOutcome.rejected e) :: rest)).handlersAttached
      = 1 + (subscribeLoop false (n + 1) rest).handlersAttached ∧
    (subscribeLoop false n (AttemptOutcome.leaseOk (FutOutcome.rejected e) :: rest)).handlersDetached
      = (subscribeLoop false (n + 1) rest).handlersDetached ∧
    (∀ e' : JsError, e'.code? ≠ some 1006 →
      (subscribeLoop false n (AttemptOutcome.leaseOk (FutOutcome.rejected e') :: rest)).handlersDetached
        = 0) := by
  refine ⟨by simp [subscribeLoop], by simp [subscribeLoop],
    by simp [subscribeLoop, h6], by simp [subscribeLoop, h6], ?_⟩
  intro e' hf
  simp [subscribeLoop, hf]

/-- Witness for `subscribe_detach_on_resolve` at concrete inputs. -/
theorem subscribe_detach_on_resolve_witness :
    (subscribeLoop false 0 [AttemptOutcome.leaseOk FutOutcome.resolved]).handlersDetached = 1 ∧
    (subscribeLoop false 0
        [AttemptOutcome.leaseOk (FutOutcome.rejected ⟨some 1006⟩)]).handlersDetached
      = (subscribeLoop false 1 []).handlersDetached := by
  obtain ⟨_, h2, _, h4, _⟩ :=
    subscribe_detach_on_resolve 0 ⟨some 1006⟩ [] (by decide)
  exact ⟨h2, h4⟩

/-- Helper: while no terminal settlement occurs, the remembered attempt
and the log of started connections are unchanged by any events. -/
theorem foldl_no_terminal (v : List LazyEvent) : ∀ (s : LazyConnectState) (a : Nat),
    s.connecting = some a → (∀ e ∈ v, isTerminalEv e = false) →
    (List.foldl lazyConnectStep s v).connecting = some a ∧
    (List.foldl lazyConnectStep s v).connects = s.connects := by
  induction v with
  | nil => intro s a hc _; exact ⟨hc, rfl⟩
  | cons e t ih =>
      intro s a hc hv
      have hv' : ∀ e' ∈ t, isTerminalEv e' = false := fun e' he' => hv e' (by simp [he'])
      have hstep : (lazyConnectStep s e).connecting = some a ∧
          (lazyConnectStep s e).connects = s.connects := by
        cases e with
        | lease => simp [lazyConnectStep, hc]
        | release i =>
            cases h : s.leases[i]? with
            | none => simp [lazyConnectStep, h, hc]
            | some l =>
                by_cases hr : l.released <;> simp [lazyConnectStep, h, hr, hc]
        | terminal b => exact absurd (hv (LazyEvent.terminal b) (by simp)) (by simp [isTerminalEv])
        | attemptFailed b => simp [lazyConnectStep, hc]
      obtain ⟨h1, h2⟩ := ih (lazyConnectStep s e) a hstep.1 hv'
      exact ⟨h1, by rw [List.foldl_cons, h2, hstep.2]⟩

/-- C3: while an attempt is remembered and its terminal signal has not
settled, no event changes the remembered attempt or starts a new
connection, every `lease()` call in that window observes the very same
attempt, a fresh connection is started by `lease()` exactly when no
attempt is remembered, and the remembered attempt can only be cleared
by a terminal settlement. -/
theorem lazy_single_attempt (u v : List LazyEvent) (a : Nat)
    (hc : (runLazy u).connecting = some a)
    (hv : ∀ e ∈ v, isTerminalEv e = false) :
    (runLazy (u ++ v)).connecting = some a ∧
    (runLazy (u ++ v)).connects = (runLazy u).connects ∧
    (∀ s : LazyConnectState, s.connecting = some a →
        lazyConnectStep s LazyEvent.lease
          = { s with locks := s.locks + 1, leases := s.leases ++ [⟨a, false⟩] }) ∧
    (∀ s : LazyConnectState, s.connecting = none →
        lazyConnectStep s LazyEvent.lease
          = { s with locks := s.locks + 1,
                     connecting := some s.nextAttempt,
                     nextAttempt := s.nextAttempt + 1,
                     leases := s.leases ++ [⟨s.nextAttempt, false⟩],
                     connects := s.connects ++ [s.nextAttempt] }) ∧
    (∀ (s : LazyConnectState) (e : LazyEvent),
        (lazyConnectStep s e).connecting = none →
        s.connecting = none ∨ isTerminalEv e = true) := by
  have hfold := foldl_no_terminal v (runLazy u) a hc hv
  have happ : runLazy (u ++ v) = List.foldl lazyConnectStep (runLazy u) v := by
    simp [runLazy, List.foldl_append]
  refine ⟨by rw [happ]; exact hfold.1, by rw [happ]; exact hfold.2, ?_, ?_, ?_⟩
  · intro s hs; simp [lazyConnectStep, hs]
  · intro s hs; simp [lazyConnectStep, hs]
  · intro s e h
    cases e with
    | lease =>
        cases hs : s.connecting with
        | none => exact Or.inl rfl
        | some b => simp [lazyConnectStep, hs] at h
    | release i =>
        refine Or.inl ?_
        cases hg : s.leases[i]? with
        | none => simpa [lazyConnectStep, hg] using h
        | some l =>
            by_cases hr : l.released
            · simpa [lazyConnectStep, hg, hr] using h
            · simpa [lazyConnectStep, hg, hr] using h
    | terminal b => exact Or.inr rfl
    | attemptFailed b => exact Or.inl (by simpa [lazyConnectStep] using h)

/-- Witness for `lazy_single_attempt` at concrete inputs: two further
lease calls and a release after the first lease keep attempt `0`
remembered and start no new connection. -/
theorem lazy_single_attempt_witness :
    (runLazy ([LazyEvent.lease] ++ [LazyEvent.lease, LazyEvent.release 0])).connecting
      = some 0 ∧
    (runLazy ([LazyEvent.lease] ++ [LazyEvent.lease, LazyEvent.release 0])).connects
      = (runLazy [LazyEvent.lease]).connects := by
  obtain ⟨h1, h2, _⟩ :=
    lazy_single_attempt [LazyEvent.lease] [LazyEvent.lease, LazyEvent.release 0] 0
      (by decide) (by decide)
  exact ⟨h1, h2⟩

/-- Helper: every attempt number ever logged as started is below the
manager's next-attempt counter, so the counter's value is always fresh. -/
theorem foldl_connects_lt (t : List LazyEvent) : ∀ s : LazyConnectState,
    (∀ b ∈ s.connects, b < s.nextAttempt) →
    ∀ b ∈ (List.foldl lazyConnectStep s t).connects,
      b < (List.foldl lazyConnectStep s t).nextAttempt := by
  induction t with
  | nil => intro s hs; exact hs
  | cons e r ih =>
      intro s hs
      refine ih (lazyConnectStep s e) ?_
      cases e with
      | lease =>
          cases hc : s.connecting with
          | some a => simpa [lazyConnectStep, hc] using hs
          | none =>
              intro b hb
              simp [lazyConnectStep, hc] at hb ⊢
              rcases hb with hb | hb
              · exact Nat.lt_succ_of_lt (hs b hb)
              · omega
      | release i =>
          cases h : s.leases[i]? with
          | none => simpa [lazyConnectStep, h] using hs
          | some l =>
              by_cases hr : l.released <;> simpa [lazyConnectStep, h, hr] using hs
      | terminal a => simpa [lazyConnectStep] using hs
      | attemptFailed a => simpa [lazyConnectStep] using hs

/-- Helper: in every reachable manager state the started attempts all
lie below the next-attempt counter. -/
theorem runLazy_connects_lt (t : List LazyEvent) :
    ∀ b ∈ (runLazy t).connects, b < (runLazy t).nextAttempt :=
  foldl_connects_lt t initLazy (by intro b hb; simp [initLazy] at hb)

/-- C5 counterexample: after the remembered attempt `0` has failed (its
`connect(url)` promise rejected), the next `lease()` call still
observes the very same rejected attempt: no new connection is started
(`connects` stays `[0]`), `connecting` still remembers attempt `0`, and
the second lease is bound to attempt `0` — the remembered attempt is
not cleared by the failure itself. -/
theorem lazy_failed_attempt_reused_cex :
    (runLazy [LazyEvent.lease, LazyEvent.attemptFailed 0, LazyEvent.lease]).connects = [0] ∧
    (runLazy [LazyEvent.lease, LazyEvent.attemptFailed 0, LazyEvent.lease]).connecting
      = some 0 ∧
    (runLazy [LazyEvent.lease, LazyEvent.attemptFailed 0, LazyEvent.lease]).leases
      = [⟨0, false⟩, ⟨0, false⟩] := by
  decide

/-- C5 amended: the remembered attempt is cleared exactly when the
connection's terminal signal settles — after that the next `lease()`
starts a fresh attempt (a number never used before).  A rejection of
the connect attempt itself clears nothing: `connecting` keeps the
rejected attempt and the next `lease()` reuses it, starting no fresh
connection, so every subsequent caller observes the old failure
again. -/
theorem lazy_attempt_cleared_only_by_terminal (t : List LazyEvent) (a : Nat)
    (h : (runLazy t).connecting = some a) :
    (runLazy (t ++ [LazyEvent.terminal a])).connecting = none ∧
    (runLazy (t ++ [LazyEvent.terminal a, LazyEvent.lease])).connects
      = (runLazy t).connects ++ [(runLazy t).nextAttempt] ∧
    (runLazy t).nextAttempt ∉ (runLazy t).connects ∧
    (runLazy (t ++ [LazyEvent.attemptFailed a])).connecting = some a ∧
    (runLazy (t ++ [LazyEvent.attemptFailed a, LazyEvent.lease])).connects
      = (runLazy t).connects := by
  have happ : ∀ w : List LazyEvent,
      runLazy (t ++ w) = List.foldl lazyConnectStep (runLazy t) w := by
    intro w; simp [runLazy, List.foldl_append]
  refine ⟨?_, ?_, ?_, ?_, ?_⟩
  · rw [happ]; simp [lazyConnectStep]
  · rw [happ]; simp [lazyConnectStep]
  · intro hmem
    exact absurd (runLazy_connects_lt t _ hmem) (by omega)
  · rw [happ]; simpa [lazyConnectStep] using h
  · rw [happ]
    simp [List.foldl_cons, lazyConnectStep, h]

/-- Witness for `lazy_attempt_cleared_only_by_terminal` at concrete
inputs. -/
theorem lazy_attempt_cleared_only_by_terminal_witness :
    (runLazy ([LazyEvent.lease] ++ [LazyEvent.terminal 0])).connecting = none ∧
    (runLazy ([LazyEvent.lease] ++ [LazyEvent.terminal 0, LazyEvent.lease])).connects
      = (runLazy [LazyEvent.lease]).connects ++ [(runLazy [LazyEvent.lease]).nextAttempt] ∧
    (runLazy ([LazyEvent.lease] ++ [LazyEvent.attemptFailed 0])).connecting = some 0 := by
  obtain ⟨h1, h2, _, h4, _⟩ :=
    lazy_attempt_cleared_only_by_terminal [LazyEvent.lease] 0 (by decide)
  exact ⟨h1, h2, h4⟩

/-- Helper: while an attempt `a` is remembered, `n` further `lease()`
calls just increment `locks` `n` times and append `n` unreleased leases
on attempt `a`. -/
theorem foldl_lease_replicate (n : Nat) : ∀ (s : LazyConnectState) (a : Nat),
    s.connecting = some a →
    List.foldl lazyConnectStep s (List.replicate n LazyEvent.lease)
      = { s with locks := s.locks + (n : Int),
                 leases := s.leases ++ List.replicate n ⟨a, false⟩ } := by
  induction n with
  | zero => intro s a _; cases s; simp
  | succ k ih =>
      intro s a hc
      rw [List.replicate_succ, List.foldl_cons]
      have hstep : lazyConnectStep s LazyEvent.lease
          = { s with locks := s.locks + 1, leases := s.leases ++ [(⟨a, false⟩ : Lease)] } := by
        simp [lazyConnectStep, hc]
      rw [hstep, ih _ a (by simp [hc])]
      cases s
      simp only [LazyConnectState.mk.injEq, List.append_assoc, List.singleton_append,
        List.replicate_succ, and_true, true_and]
      push_cast
      ring

/-- Helper: the manager state after `k + 1` initial `lease()` calls:
one connection attempt (number `0`) started, `locks = k + 1`, and
`k + 1` unreleased leases on attempt `0`. -/
theorem runLazy_replicate_lease (k : Nat) :
    runLazy (List.replicate (k + 1) LazyEvent.lease)
      = { locks := ((k : Int) + 1), connecting := some 0, nextAttempt := 1,
          leases := List.replicate (k + 1) ⟨0, false⟩, connects := [0],
          completes := [], failedAttempts := [] } := by
  rw [List.replicate_succ]
  show List.foldl lazyConnectStep initLazy (LazyEvent.lease :: List.replicate k LazyEvent.lease)
      = _
  rw [List.foldl_cons]
  have h1 : lazyConnectStep initLazy LazyEvent.lease
      = ⟨1, some 0, 1, [⟨0, false⟩], [0], [], []⟩ := by decide
  rw [h1, foldl_lease_replicate k _ 0 rfl]
  simp only [LazyConnectState.mk.injEq, List.singleton_append, List.replicate_succ,
    and_true, true_and]
  ring

/-- Helper: releasing a set of pairwise distinct, unreleased leases on
attempt `a`, starting from `locks` equal to that set's size plus `m`,
ends with `locks = m`, and appends exactly one `complete()` on attempt
`a` exactly when the count reaches zero (`m = 0` and at least one
release happened); otherwise the complete log is untouched. -/
theorem foldl_release_aux (rs : List Nat) : ∀ (m : Nat) (s : LazyConnectState) (a : Nat),
    rs.Nodup → (∀ i ∈ rs, s.leases[i]? = some ⟨a, false⟩) →
    s.locks = (rs.length : Int) + (m : Int) →
    (List.foldl lazyConnectStep s (rs.map LazyEvent.release)).locks = (m : Int) ∧
    (List.foldl lazyConnectStep s (rs.map LazyEvent.release)).completes
      = (if m = 0 ∧ rs ≠ [] then s.completes ++ [a] else s.completes) := by
  induction rs with
  | nil =>
      intro m s a _ _ hl
      refine ⟨by simpa using hl, by simp⟩
  | cons i t ih =>
      intro m s a hnd hm hl
      obtain ⟨hit, hndt⟩ := List.nodup_cons.mp hnd
      have hi : s.leases[i]? = some ⟨a, false⟩ := hm i (by simp)
      have hstep : lazyConnectStep s (LazyEvent.release i)
          = { s with locks := s.locks - 1,
                     leases := s.leases.set i ⟨a, true⟩,
                     completes := if s.locks - 1 = 0 then s.completes ++ [a]
                                  else s.completes } := by
        simp [lazyConnectStep, hi]
      have hm' : ∀ j ∈ t,
          (lazyConnectStep s (LazyEvent.release i)).leases[j]? = some ⟨a, false⟩ := by
        intro j hj
        have hij : i ≠ j := fun hh => hit (hh ▸ hj)
        rw [hstep]
        simpa [List.getElem?_set_ne hij] using hm j (by simp [hj])
      have hl' : (lazyConnectStep s (LazyEvent.release i)).locks
          = (t.length : Int) + (m : Int) := by
        rw [hstep]
        simp only [List.length_cons] at hl
        push_cast at hl ⊢
        omega
      obtain ⟨ihl, ihc⟩ := ih m (lazyConnectStep s (LazyEvent.release i)) a hndt hm' hl'
      rw [List.map_cons, List.foldl_cons]
      refine ⟨ihl, ?_⟩
      rw [ihc, hstep]
      by_cases hm0 : m = 0
      · by_cases ht : t = []
        · have hz : s.locks - 1 = 0 := by
            subst ht; subst hm0
            simp only [List.length_cons, List.length_nil] at hl
            push_cast at hl; omega
          subst ht
          simp [hz, hm0]
        · have hz : s.locks - 1 ≠ 0 := by
            have htl : 1 ≤ t.length := List.length_pos.mpr ht
            simp only [List.length_cons] at hl
            push_cast at hl; omega
          simp [hz, hm0, ht]
      · have hz : s.locks - 1 ≠ 0 := by
          simp only [List.length_cons] at hl
          push_cast at hl; omega
        simp [hz, hm0]

/-- C1 counterexample: after one lease and the settlement of the
connection's terminal signal (the lease's combined released-or-terminal
future therefore settled), the lock count is still `1` — no decrement
happened — and `complete()` was never invoked: only the `released`
branch of the race decrements, not the terminal branch. -/
theorem lazy_terminal_no_decrement_cex :
    (runLazy [LazyEvent.lease, LazyEvent.terminal 0]).locks = 1 ∧
    (runLazy [LazyEvent.lease, LazyEvent.terminal 0]).completes = [] := by
  decide

/-- C1 amended: the lock count is decremented when (and only when) a
lease's `release` trigger first fires — the settlement of the terminal
signal alone decrements nothing and never invokes `complete()`.  For
`n ≥ 1` leases each released exactly once, in any order, the count
reaches `0` exactly at the last release, at that moment `complete()` is
invoked on the shared connection, exactly once across all the leases,
and while the count is still positive (some release outstanding)
`complete()` has not been invoked. -/
theorem lazy_complete_exactly_once (n : Nat) (rs p q : List Nat)
    (hn : 1 ≤ n) (hperm : rs.Perm (List.range n)) (hsplit : rs = p ++ q) :
    (runLazy (List.replicate n LazyEvent.lease ++ p.map LazyEvent.release)).locks
      = (q.length : Int) ∧
    (q = [] →
      (runLazy (List.replicate n LazyEvent.lease ++ p.map LazyEvent.release)).completes
        = [0]) ∧
    (q ≠ [] →
      (runLazy (List.replicate n LazyEvent.lease ++ p.map LazyEvent.release)).completes
        = []) ∧
    (∀ (s : LazyConnectState) (b : Nat),
        (lazyConnectStep s (LazyEvent.terminal b)).locks = s.locks ∧
        (lazyConnectStep s (LazyEvent.terminal b)).completes = s.completes) := by
  obtain ⟨k, rfl⟩ : ∃ k, n = k + 1 := ⟨n - 1, by omega⟩
  have hS := runLazy_replicate_lease k
  have happ : runLazy (List.replicate (k + 1) LazyEvent.lease ++ p.map LazyEvent.release)
      = List.foldl lazyConnectStep (runLazy (List.replicate (k + 1) LazyEvent.lease))
          (p.map LazyEvent.release) := by
    simp [runLazy, List.foldl_append]
  have hlen : rs.length = k + 1 := by rw [hperm.length_eq]; simp
  have hnodup : rs.Nodup := (hperm.nodup_iff).mpr (List.nodup_range _)
  have hpnd : p.Nodup := (hsplit ▸ hnodup).of_append_left
  have hmem : ∀ i ∈ p, i < k + 1 := by
    intro i hi
    have h1 : i ∈ rs := hsplit ▸ List.mem_append_left q hi
    simpa [List.mem_range] using hperm.mem_iff.mp h1
  have hleases : ∀ i ∈ p,
      (runLazy (List.replicate (k + 1) LazyEvent.lease)).leases[i]? = some ⟨0, false⟩ := by
    intro i hi
    rw [hS]
    exact List.getElem?_replicate_of_lt (by simpa using hmem i hi)
  have hpq : p.length + q.length = k + 1 := by
    rw [← List.length_append, ← hsplit, hlen]
  have hlocks0 : (runLazy (List.replicate (k + 1) LazyEvent.lease)).locks
      = (p.length : Int) + (q.length : Int) := by
    rw [hS]; push_cast; omega
  obtain ⟨hl, hc⟩ :=
    foldl_release_aux p q.length (runLazy (List.replicate (k + 1) LazyEvent.lease)) 0
      hpnd hleases hlocks0
  have hcompletes0 : (runLazy (List.replicate (k + 1) LazyEvent.lease)).completes = [] := by
    rw [hS]
  refine ⟨by rw [happ]; exact hl, ?_, ?_, fun s b => ⟨rfl, rfl⟩⟩
  · intro hq
    have hpne : p ≠ [] := by
      intro hp
      rw [hp, hq] at hpq
      simp at hpq
    rw [happ, hc, hcompletes0]
    simp [hq, hpne]
  · intro hq
    have hqz : q.length ≠ 0 := by simpa [List.length_eq_zero] using hq
    rw [happ, hc]
    simp [hqz, hcompletes0]

/-- Witness for `lazy_complete_exactly_once` at concrete inputs: two
leases, released in the order `1, 0`; after the first release no
`complete()` has been issued and one lock remains, after the second the
count is `0` and `complete()` was invoked exactly once, on attempt
`0`. -/
theorem lazy_complete_exactly_once_witness :
    (runLazy (List.replicate 2 LazyEvent.lease
        ++ [LazyEvent.release 1])).completes = [] ∧
    (runLazy (List.replicate 2 LazyEvent.lease
        ++ [LazyEvent.release 1, LazyEvent.release 0])).completes = [0] ∧
    (runLazy (List.replicate 2 LazyEvent.lease
        ++ [LazyEvent.release 1, LazyEvent.release 0])).locks = 0 := by
  have h1 := lazy_complete_exactly_once 2 [1, 0] [1] [0] (by decide) (by decide) rfl
  have h2 := lazy_complete_exactly_once 2 [1, 0] [1, 0] [] (by decide) (by decide) rfl
  refine ⟨?_, ?_, ?_⟩
  · simpa using h1.2.2.1 (by decide)
  · simpa using h2.2.1 rfl
  · simpa using h2.1

/-- C9 counterexample: calling the active subscription's `complete`
twice is observably different from calling it once — the second call
sends a second `Complete{id}` envelope on the socket
(`socket.send(JSON.stringify({ complete: id }))` runs on every call),
so `complete` is not a single-fire operation at the wire level. -/
theorem active_complete_not_single_fire_cex :
    activeComplete 0 (activeComplete 0 ⟨[], false⟩) ≠ activeComplete 0 ⟨[], false⟩ := by
  decide

/-- C9 amended: a lease's `release` trigger is an idempotent
single-fire latch — a second (or any later) `release` on the same lease
is a no-op on the whole manager state, so only one lock-count decrement
occurs per lease; the pre-connection completer is idempotent; and for
the active completer only the release half is single-fire: repeated
calls leave the lease-released latch unchanged but each call sends one
more `Complete{id}` envelope. -/
theorem release_single_fire (s : LazyConnectState) (i : Nat) (st : ActiveSubState)
    (id : Int) (b : Bool) :
    lazyConnectStep (lazyConnectStep s (LazyEvent.release i)) (LazyEvent.release i)
      = lazyConnectStep s (LazyEvent.release i) ∧
    (activeComplete id st).leaseReleased = true ∧
    (activeComplete id (activeComplete id st)).leaseReleased
      = (activeComplete id st).leaseReleased ∧
    (activeComplete id (activeComplete id st)).sent
      = (activeComplete id st).sent ++ [Envelope.completeMsg id] ∧
    earlyComplete (earlyComplete b) = earlyComplete b := by
  refine ⟨?_, rfl, rfl, rfl, rfl⟩
  cases h : s.leases[i]? with
  | none => simp [lazyConnectStep, h]
  | some l =>
      by_cases hr : l.released
      · simp [lazyConnectStep, h, hr]
      · have hlt : i < s.leases.length := (List.getElem?_eq_some_iff.mp h).1
        have h2 : (s.leases.set i { l with released := true })[i]?
            = some { l with released := true } :=
          List.getElem?_set_eq_of_lt _ (by simpa using hlt)
        simp [lazyConnectStep, h, hr, h2]
